import Mathlib

/-!
Verification of the Ignition dev-server bridge (`project-server.ts`) and the
React custom-element wrapper (`create-component.ts`) of the lit repository,
via a shallow embedding of the relevant functions in Lean.

Conventions of the embedding:
* JavaScript strings are Lean `String`s; the JS `startsWith` prefix test is
  embedded as a prefix test on the underlying character lists.
* JS `Map` objects are association lists with `Map.get`/`Map.set`/`Map.delete`
  embedded as `lookupA`/`mapSet`/`mapDelete` below.
* Asynchronous code is embedded as a labelled transition system: each
  synchronous segment of a JS function (the code between two `await`
  suspension points) is one atomic step, which is exactly the atomicity the
  single-threaded JS event loop guarantees.
-/

namespace LitSpec

/-! ### Association-list primitives used to embed JS `Map` objects -/

/-- Embedding of `Map.get`: first binding of the key wins. -/
def lookupA {α β : Type} [DecidableEq α] : List (α × β) → α → Option β
  | [], _ => none
  | e :: m, k => if e.1 = k then some e.2 else lookupA m k

/-- Embedding of `Map.set`: overwrite the binding if the key is present,
otherwise add a new binding. -/
def mapSet {α β : Type} [DecidableEq α] (m : List (α × β)) (k : α) (v : β) :
    List (α × β) :=
  match lookupA m k with
  | some _ => m.map (fun e => if e.1 = k then (k, v) else e)
  | none => (k, v) :: m

/-- Embedding of `Map.delete`: remove the binding of the key, if any.
(JS maps never hold two bindings of one key, so removing every binding of
the key is the same operation.) -/
def mapDelete {α β : Type} [DecidableEq α] : List (α × β) → α → List (α × β)
  | [], _ => []
  | e :: m, k => if e.1 = k then mapDelete m k else e :: mapDelete m k

/-- Embedding of the JS string method `startsWith`. -/
def strStartsWith (s pre : String) : Bool :=
  pre.data.isPrefixOf s.data

/-- Number of occurrences of an element in a list. -/
def countA {α : Type} [DecidableEq α] (l : List α) (a : α) : Nat :=
  (l.filter (fun x => x = a)).length

/-! ### The static-file plugin of `startServer` (part_000, lines 38-101)

`passThroughPlugin.serve` receives a request path, consults the per-server
`fileCache`, maps the path to a TypeScript module through the analyzer,
emits the single file through the compiler and caches the emitted text.
The analyzer and the compiler are external collaborators; they are embedded
as finite tables inside `Analyzer`. -/

/-- Abstraction of the `@lit-labs/analyzer` instance used by the plugin.

* `modulePathOf` — modelled from the spec: `getModulePathFromJsPath`
  (imported from `./paths.js`, whose source is not part of this snapshot)
  "maps a request path to a source file via the analyzer"; it is embedded as
  a finite table from absolute js file paths to module paths, `none` meaning
  the file is not part of the TS project.
* `sourceFiles` — the module paths for which `analyzer.program.getSourceFile`
  returns a `SourceFile`.
* `emitOutputs` — the writer calls `analyzer.program.emit` performs for a
  given source file: the ordered list of `(fileName, text)` pairs passed to
  the write callback. -/
structure Analyzer where
  modulePathOf : List (String × String)
  sourceFiles : List String
  emitOutputs : List (String × List (String × String))
deriving DecidableEq

/-- Result of the write-callback loop inside `serve`: the callback overwrites
`result` with `text` each time it is called with `fileName === filePath`, so
the final value is the text of the last matching write, and `emitted` is true
iff the result is `some`. -/
def emitResult (outs : List (String × String)) (filePath : String) :
    Option String :=
  outs.foldl (fun acc o => if o.1 = filePath then some o.2 else acc) none

/-- Outcome of one `serve` call: the value returned to the dev server
(`none` means "let WDS default static serving handle it"), the file cache
after the call, and whether `analyzer.program.emit` was invoked. -/
structure ServeOutcome where
  result : Option String
  fileCache : List (String × String)
  compiled : Bool
deriving DecidableEq

/-- Embedding of `passThroughPlugin.serve` (part_000, lines 42-100). -/
def serve (workspacePath : String) (an : Analyzer)
    (fileCache : List (String × String)) (jsPath : String) : ServeOutcome :=
  if strStartsWith jsPath "/node_modules/" then
    ⟨none, fileCache, false⟩
  else
    let filePath := workspacePath ++ jsPath
    match lookupA fileCache filePath with
    | some cached => ⟨some cached, fileCache, false⟩
    | none =>
      match lookupA an.modulePathOf filePath with
      | none => ⟨none, fileCache, false⟩
      | some modulePath =>
        if modulePath ∈ an.sourceFiles then
          match emitResult ((lookupA an.emitOutputs modulePath).getD [])
              filePath with
          | some text => ⟨some text, (filePath, text) :: fileCache, true⟩
          | none => ⟨none, fileCache, true⟩
        else ⟨none, fileCache, false⟩

/-- The `baseUrl` constant of part_000, line 28. It is declared in the
source but never read by any function of the file. -/
def baseUrl : String := "/_src/"

/-! ### The `/story/:path` route of `getMiddleware` (part_000, lines 127-166) -/

/-- The story source URL `http://localhost:${lazyAddress.port}/${storyPath}`
(part_000, line 139). The lazily populated port is kept abstract as a
string (the code allows `string | number`). -/
def storySrcUrl (lazyPort storyPath : String) : String :=
  "http://localhost:" ++ lazyPort ++ "/" ++ storyPath

/-- Embedding of the HTML template literal assigned to `context.body` by the
`/story/:path` route handler (part_000, lines 141-163), with the two
interpolation points `${uiServerPort}` and `${storySrc}`. -/
def storyHtml (uiServerPort : Nat) (lazyPort storyPath : String) : String :=
  "\n      <!doctype html>\n      <html>\n        <head>\n          " ++
    "<script type=\x27module\x27 src=\x27http://localhost:" ++
    toString uiServerPort ++ "/frame-entrypoint.js\x27></script>" ++
    "\n          <style id=\"_defaultStyles\"></style>\n          <style>\n            body, html \x7b\n              margin: 0;\n              padding: 0;\n              width: 100%;\n              height: 100%;\n            \x7d\n            * \x7b\n              box-sizing: border-box;\n            \x7d\n          </style>\n        </head>\n        <body>\n          " ++
    "<ignition-storyboard src=" ++ storySrcUrl lazyPort storyPath ++
    "></ignition-storyboard>" ++ "\n        </body>\n      </html>\n    "

/-! ### The per-workspace server cache of `getProjectServer`
(part_000, lines 168-200)

`getProjectServer` is `async`: its synchronous prefix — reading
`serverCache`, creating the `Deferred` and inserting it into the cache —
runs atomically before the first `await` (the code comments "Must be before
first await to avoid races").  The remainder (awaiting the UI server and the
analyzer, starting the dev server, then resolving or rejecting the deferred)
runs later on the event loop.  The embedding is a labelled transition
system: a `call` event is the atomic synchronous prefix of one
`getProjectServer` invocation, and a `startupOk`/`startupErr` event is the
completion of the startup work spawned by the call that created the
deferred. -/

/-- State of one `Deferred<Server>`: servers and errors are kept abstract
as numbers. -/
inductive DState
  | pending
  | resolved (server : Nat)
  | rejected (err : Nat)
deriving DecidableEq

/-- Process-wide state of the `getProjectServer` module.

* `serverCache` — the module-level `serverCache : Map<string, Deferred>`;
  deferreds are identified by allocation order.
* `dstate` — the settlement state of every allocated deferred.
* `pendingStarts` — the startup tasks that have been spawned but have not
  yet resolved or rejected their deferred.
* `starts` — the log of server startups initiated, one entry (the workspace
  path) per execution of the `serverDeferred === undefined` branch.
* `nextDeferred` — allocator for deferred identities. -/
structure ProjectServerState where
  serverCache : List (String × Nat)
  dstate : List (Nat × DState)
  pendingStarts : List (String × Nat)
  starts : List String
  nextDeferred : Nat
deriving DecidableEq

/-- The state at module load: an empty `serverCache`. -/
def initProjectServerState : ProjectServerState :=
  ⟨[], [], [], [], 0⟩

/-- Events of the transition system: a `getProjectServer` call (its atomic
synchronous prefix) and the completion of a spawned startup, successful or
failed. -/
inductive PEvent
  | call (path : String)
  | startupOk (path : String) (d : Nat) (server : Nat)
  | startupErr (path : String) (d : Nat) (err : Nat)

/-- Removes one pending startup task. -/
def removePending : List (String × Nat) → String → Nat → List (String × Nat)
  | [], _, _ => []
  | x :: l, p, d => if x = (p, d) then l else x :: removePending l p d

/-- The synchronous prefix of `getProjectServer` (lines 173-177 and the
entry into the `try` block): on a cache hit the cached deferred is returned
unchanged; on a miss a fresh `Deferred` is created and inserted into
`serverCache` *before any await*, the startup is initiated, and the fresh
deferred is returned. -/
def stepCall (s : ProjectServerState) (path : String) :
    ProjectServerState × Nat :=
  match lookupA s.serverCache path with
  | some d => (s, d)
  | none =>
    let d := s.nextDeferred
    (⟨(path, d) :: s.serverCache,
      (d, DState.pending) :: s.dstate,
      (path, d) :: s.pendingStarts,
      path :: s.starts,
      d + 1⟩, d)

/-- One transition.  A `call` returns the deferred handed to the caller
(recorded in the run log); a completion settles the deferred of a pending
startup (`serverDeferred.resolve(server)` / `serverDeferred.reject(e)`) and
is a no-op if no such startup is pending. -/
def step (s : ProjectServerState) : PEvent → ProjectServerState × Option (String × Nat)
  | PEvent.call p =>
    let r := stepCall s p
    (r.1, some (p, r.2))
  | PEvent.startupOk p d srv =>
    if (p, d) ∈ s.pendingStarts then
      ({ s with
          dstate := mapSet s.dstate d (DState.resolved srv),
          pendingStarts := removePending s.pendingStarts p d }, none)
    else (s, none)
  | PEvent.startupErr p d err =>
    if (p, d) ∈ s.pendingStarts then
      ({ s with
          dstate := mapSet s.dstate d (DState.rejected err),
          pendingStarts := removePending s.pendingStarts p d }, none)
    else (s, none)

/-- Runs a list of events, collecting the final state and the log of
`(path, deferred)` pairs returned to `getProjectServer` callers. -/
def run (s : ProjectServerState) :
    List PEvent → ProjectServerState × List (String × Nat)
  | [] => (s, [])
  | e :: es =>
    let r := step s e
    let rest := run r.1 es
    (rest.1, r.2.toList ++ rest.2)

/-- Invariant of reachable `getProjectServer` states:

* `startsCache` — a startup has been initiated for a path exactly when the
  path is cached, and then exactly once;
* `pendingPending` — a pending startup's deferred is still pending;
* `dstateFresh` — allocated deferred identities are below the allocator;
* `pendingSndNodup` — distinct pending startups settle distinct deferreds. -/
structure PInv (s : ProjectServerState) : Prop where
  startsCache : ∀ p, countA s.starts p =
    if (lookupA s.serverCache p).isSome then 1 else 0
  pendingPending : ∀ p d, (p, d) ∈ s.pendingStarts →
    lookupA s.dstate d = some DState.pending
  dstateFresh : ∀ d st, (d, st) ∈ s.dstate → d < s.nextDeferred
  pendingSndNodup : (s.pendingStarts.map Prod.snd).Nodup

/-! ### The React custom-element wrapper (part_001, lines 108-387) -/

/-- The reserved React property names (part_001, lines 108-114). -/
def reservedReactProperties : List String :=
  ["children", "localName", "ref", "style", "className"]

/-- State of the event-listener bookkeeping around `addOrUpdateEventListener`
(part_001, lines 116-151).  DOM nodes, handler objects and listener
functions are kept abstract as numbers.

* `listenedEvents` — the module-level
  `WeakMap<Element, Map<string, EventListenerObject>>`.
* `handleFn` — the current `handleEvent` field of every handler object.
* `registered` — the listeners actually registered on DOM nodes: one entry
  `((node, event), handler)` per active `addEventListener` registration.
* `nextHandler` — allocator for handler-object identities.
* `addCalls` — how many times `node.addEventListener` has been invoked. -/
structure ListenerState where
  listenedEvents : List (Nat × List (String × Nat))
  handleFn : List (Nat × Nat)
  registered : List ((Nat × String) × Nat)
  nextHandler : Nat
  addCalls : Nat
deriving DecidableEq

/-- The state at module load. -/
def initListenerState : ListenerState := ⟨[], [], [], 0, 0⟩

/-- Lines 132-135 of part_001: `let events = listenedEvents.get(node)`,
creating and inserting an empty map when the node has none yet; this is
the `listenedEvents` map after that statement. -/
def leInsert (s : ListenerState) (node : Nat) :
    List (Nat × List (String × Nat)) :=
  match lookupA s.listenedEvents node with
  | some _ => s.listenedEvents
  | none => (node, ([] : List (String × Nat))) :: s.listenedEvents

/-- The `events` map of the node after line 135. -/
def nodeEvents (s : ListenerState) (node : Nat) : List (String × Nat) :=
  (lookupA (leInsert s node) node).getD []

/-- Embedding of `node.removeEventListener(event, handler)`: drop the
registration of this handler for this event on this node. -/
def removeReg : List ((Nat × String) × Nat) → Nat → String → Nat →
    List ((Nat × String) × Nat)
  | [], _, _, _ => []
  | x :: l, n, e, h => if x = ((n, e), h) then l else x :: removeReg l n e h

/-- Embedding of `addOrUpdateEventListener(node, event, listener)`
(part_001, lines 127-151).  `listener` is `none` for JS `undefined`. -/
def addOrUpdateEventListener (s : ListenerState) (node : Nat) (event : String)
    (listener : Option Nat) : ListenerState :=
  -- let handler = events.get(event)
  let handler := lookupA (nodeEvents s node) event
  match listener with
  | some l =>
    match handler with
    | none =>
      -- events.set(event, handler = new handler object with handleEvent
      -- pointing at listener); node.addEventListener(event, handler)
      let h := s.nextHandler
      ⟨mapSet (leInsert s node) node (mapSet (nodeEvents s node) event h),
        mapSet s.handleFn h l,
        ((node, event), h) :: s.registered,
        h + 1,
        s.addCalls + 1⟩
    | some h =>
      -- handler.handleEvent = listener
      ⟨leInsert s node, mapSet s.handleFn h l, s.registered, s.nextHandler,
        s.addCalls⟩
  | none =>
    match handler with
    | some h =>
      -- events.delete(event); node.removeEventListener(event, handler)
      ⟨mapSet (leInsert s node) node (mapDelete (nodeEvents s node) event),
        s.handleFn,
        removeReg s.registered node event h,
        s.nextHandler,
        s.addCalls⟩
    | none =>
      ⟨leInsert s node, s.handleFn, s.registered, s.nextHandler, s.addCalls⟩

/-- One `addOrUpdateEventListener` call, as data. -/
structure LCall where
  node : Nat
  event : String
  listener : Option Nat

/-- Runs a sequence of `addOrUpdateEventListener` calls from the initial
module state. -/
def runListeners (calls : List LCall) : ListenerState :=
  calls.foldl (fun s c => addOrUpdateEventListener s c.node c.event c.listener)
    initListenerState

/-- The handler object tracked for a `(node, event)` pair:
`listenedEvents.get(node)?.get(event)`. -/
def trackedHandler (s : ListenerState) (node : Nat) (event : String) :
    Option Nat :=
  lookupA ((lookupA s.listenedEvents node).getD []) event

/-- The listeners registered on `node` for `event`. -/
def regList (s : ListenerState) (node : Nat) (event : String) :
    List ((Nat × String) × Nat) :=
  s.registered.filter (fun r => r.1 = (node, event))

/-- Invariant of reachable listener states: for each `(node, event)` pair,
the listeners registered on the node are exactly the tracked handler —
one registration when a handler is tracked, none otherwise. -/
structure LInv (s : ListenerState) : Prop where
  regTracked : ∀ n e, regList s n e =
    match trackedHandler s n e with
    | some h => [((n, e), h)]
    | none => []

/-- Embedding of `setProperty(node, name, value, old, events)`
(part_001, lines 157-174), acting on the listener bookkeeping and on the
element's property table.  Values are `Option Nat`, `none` standing for JS
`undefined`; `!==` on these values is `≠`. -/
def setProperty (s : ListenerState × List (String × Option Nat)) (node : Nat)
    (name : String) (value old : Option Nat)
    (events : List (String × String)) :
    ListenerState × List (String × Option Nat) :=
  match lookupA events name with
  | some event =>
    -- Dirty check event value.
    if value ≠ old then (addOrUpdateEventListener s.1 node event value, s.2)
    else s
  | none =>
    -- But don't dirty check properties; elements are assumed to do this.
    (s.1, mapSet s.2 name value)

/-! ### Prop routing in `ReactComponent.render` (part_001, lines 344-368) -/

/-- Spec-side routing predicate, phrased as the claim phrases it: the prop
is a configured event prop, or a key of the element class's prototype that
is neither a reserved React property nor a property of
`HTMLElement.prototype`.  To be compared with `routesToElement` below,
which transcribes the source order of the tests. -/
def specRoutesToElement (eventProps htmlProtoKeys elemProtoKeys : List String)
    (k : String) : Bool :=
  decide (k ∈ eventProps) ||
    (decide (k ∈ elemProtoKeys) &&
      !decide (k ∈ reservedReactProperties) &&
      !decide (k ∈ htmlProtoKeys))

/-- The test deciding that a prop is set on the custom element as a
property (part_001, lines 355-360): it is a configured event prop, or a
non-reserved key of `element.prototype` that is not on
`HTMLElement.prototype`.  The prototype key sets are abstracted as lists of
the keys the `in` operator finds. -/
def routesToElement (eventProps htmlProtoKeys elemProtoKeys : List String)
    (k : String) : Bool :=
  decide (k ∈ eventProps) ||
    (!decide (k ∈ reservedReactProperties) &&
      !decide (k ∈ htmlProtoKeys) &&
      decide (k ∈ elemProtoKeys))

/-- The loop body of `render` over `Object.entries(this.props)`
(part_001, lines 351-367): starting from `props = \x7bref: this._ref\x7d` and
`this._elementProps = \x7b\x7d`, each entry is skipped (`__forwardedRef`),
routed to `_elementProps`, or added to the React props with `className`
renamed to `class`. -/
def renderSplit {V : Type} (eventProps htmlProtoKeys elemProtoKeys : List String)
    (refV : V) (entries : List (String × V)) :
    List (String × V) × List (String × V) :=
  entries.foldl
    (fun acc kv =>
      if kv.1 = "__forwardedRef" then acc
      else if routesToElement eventProps htmlProtoKeys elemProtoKeys kv.1 then
        (acc.1 ++ [kv], acc.2)
      else
        (acc.1, acc.2 ++ [(if kv.1 = "className" then "class" else kv.1, kv.2)]))
    (([] : List (String × V)), [("ref", refV)])

/-! ### Lemmas about the association-list primitives -/

theorem lookupA_cons_self {α β : Type} [DecidableEq α] (m : List (α × β))
    (k : α) (v : β) : lookupA ((k, v) :: m) k = some v := by
  simp [lookupA]

theorem lookupA_cons_ne {α β : Type} [DecidableEq α] (m : List (α × β))
    (k k' : α) (v : β) (h : k' ≠ k) :
    lookupA ((k', v) :: m) k = lookupA m k := by
  simp [lookupA, h]

/-! ### Lemmas about the static-file plugin -/

/-- Cache persistence: `serve` never removes or overwrites a cache entry. -/
theorem serve_preserves_cache (ws : String) (an : Analyzer)
    (c : List (String × String)) (q p t : String)
    (h : lookupA c p = some t) :
    lookupA (serve ws an c q).fileCache p = some t := by
  unfold serve
  split
  · exact h
  · rcases h1 : lookupA c (ws ++ q) with _ | cached
    · rcases h2 : lookupA an.modulePathOf (ws ++ q) with _ | m
      · simpa [h1, h2] using h
      · simp only [h1, h2]
        split
        · rcases h3 : emitResult ((lookupA an.emitOutputs m).getD []) (ws ++ q)
            with _ | text
          · simpa [h3] using h
          · simp only [h3]
            have hne : ws ++ q ≠ p := by
              intro he
              rw [he] at h1
              rw [h1] at h
              exact Option.noConfusion h
            simpa [lookupA_cons_ne _ _ _ _ hne] using h
        · simpa using h
    · simpa [h1] using h

/-- The successful-emit branch of `serve`. -/
theorem serve_emit_eq (ws : String) (an : Analyzer)
    (cache : List (String × String)) (jsPath m text : String)
    (hnm : strStartsWith jsPath "/node_modules/" = false)
    (hc : lookupA cache (ws ++ jsPath) = none)
    (hm : lookupA an.modulePathOf (ws ++ jsPath) = some m)
    (hs : m ∈ an.sourceFiles)
    (he : emitResult ((lookupA an.emitOutputs m).getD []) (ws ++ jsPath) =
      some text) :
    serve ws an cache jsPath =
      ⟨some text, (ws ++ jsPath, text) :: cache, true⟩ := by
  simp [serve, hnm, hc, hm, hs, he]

/-- The cache-hit branch of `serve`. -/
theorem serve_cacheHit_eq (ws : String) (an : Analyzer)
    (cache : List (String × String)) (jsPath t : String)
    (hnm : strStartsWith jsPath "/node_modules/" = false)
    (hc : lookupA cache (ws ++ jsPath) = some t) :
    serve ws an cache jsPath = ⟨some t, cache, false⟩ := by
  simp [serve, hnm, hc]

/-! ### Claims C3-C7 -/

/-- C3: the static-file plugin memoizes compilation by absolute file path.
On the first successful emit for a path the emitted text is stored in the
file cache and returned; every later serve request for the same absolute
path returns exactly that cached text without invoking the compiler again;
and no cache entry is ever changed once written. -/
theorem passThroughPlugin_memoizes (ws : String) (an : Analyzer)
    (cache : List (String × String)) (jsPath m text : String)
    (hnm : strStartsWith jsPath "/node_modules/" = false)
    (hc : lookupA cache (ws ++ jsPath) = none)
    (hm : lookupA an.modulePathOf (ws ++ jsPath) = some m)
    (hs : m ∈ an.sourceFiles)
    (he : emitResult ((lookupA an.emitOutputs m).getD []) (ws ++ jsPath) =
      some text) :
    serve ws an cache jsPath =
      ⟨some text, (ws ++ jsPath, text) :: cache, true⟩ ∧
    lookupA ((ws ++ jsPath, text) :: cache) (ws ++ jsPath) = some text ∧
    (∀ an2 : Analyzer,
      serve ws an2 ((ws ++ jsPath, text) :: cache) jsPath =
        ⟨some text, (ws ++ jsPath, text) :: cache, false⟩) ∧
    (∀ (c : List (String × String)) (q p t : String),
      lookupA c p = some t → lookupA (serve ws an c q).fileCache p = some t) := by
  refine ⟨serve_emit_eq ws an cache jsPath m text hnm hc hm hs he,
    lookupA_cons_self cache (ws ++ jsPath) text, ?_, ?_⟩
  · intro an2
    exact serve_cacheHit_eq ws an2 _ jsPath text hnm
      (lookupA_cons_self cache (ws ++ jsPath) text)
  · intro c q p t h
    exact serve_preserves_cache ws an c q p t h

/-- Witness for C3 at a concrete workspace, analyzer and request. -/
theorem passThroughPlugin_memoizes_witness :
    (strStartsWith "/foo.js" "/node_modules/" = false ∧
      lookupA ([] : List (String × String)) ("/ws" ++ "/foo.js") = none ∧
      lookupA [("/ws/foo.js", "/ws/foo.ts")] ("/ws" ++ "/foo.js") =
        some "/ws/foo.ts" ∧
      "/ws/foo.ts" ∈ ["/ws/foo.ts"] ∧
      emitResult ((lookupA [("/ws/foo.ts", [("/ws/foo.js", "out")])]
        "/ws/foo.ts").getD []) ("/ws" ++ "/foo.js") = some "out") ∧
    serve "/ws"
        ⟨[("/ws/foo.js", "/ws/foo.ts")], ["/ws/foo.ts"],
          [("/ws/foo.ts", [("/ws/foo.js", "out")])]⟩ [] "/foo.js" =
      ⟨some "out", [("/ws" ++ "/foo.js", "out")], true⟩ := by
  refine ⟨⟨by decide, by decide, by decide, by decide, by decide⟩, ?_⟩
  exact (passThroughPlugin_memoizes "/ws"
    ⟨[("/ws/foo.js", "/ws/foo.ts")], ["/ws/foo.ts"],
      [("/ws/foo.ts", [("/ws/foo.js", "out")])]⟩ [] "/foo.js" "/ws/foo.ts"
    "out" (by decide) (by decide) (by decide) (by decide) (by decide)).1

/-- C4 counterexample: the claim "a request path must begin with `/_src/`
for the static-file plugin to compile and return emitted text" is false:
for the request path `/foo.js`, which does not begin with `/_src/`, the
plugin compiles and returns the emitted text.  (`baseUrl = "/_src/"` is
declared in the source but never read.) -/
theorem serve_result_outside_src :
    (serve "/ws"
        ⟨[("/ws/foo.js", "/ws/foo.ts")], ["/ws/foo.ts"],
          [("/ws/foo.ts", [("/ws/foo.js", "out")])]⟩ [] "/foo.js").result =
      some "out" ∧
    strStartsWith "/foo.js" baseUrl = false := by
  constructor
  · decide
  · decide

/-- C4 (amended): the plugin compiles and returns emitted text for every
request path outside `/node_modules/` that the analyzer maps to a source
file with emit output, regardless of whether the path begins with the
(declared but never consulted) `/_src/` prefix. -/
theorem serve_compiles_any_mapped_path (ws : String) (an : Analyzer)
    (cache : List (String × String)) (jsPath m text : String)
    (hnm : strStartsWith jsPath "/node_modules/" = false)
    (hc : lookupA cache (ws ++ jsPath) = none)
    (hm : lookupA an.modulePathOf (ws ++ jsPath) = some m)
    (hs : m ∈ an.sourceFiles)
    (he : emitResult ((lookupA an.emitOutputs m).getD []) (ws ++ jsPath) =
      some text) :
    (serve ws an cache jsPath).result = some text := by
  simp [serve, hnm, hc, hm, hs, he]

/-- Witness for the amended C4 at a request path outside `/_src/`. -/
theorem serve_compiles_any_mapped_path_witness :
    (strStartsWith "/bar/baz.js" "/node_modules/" = false ∧
      lookupA ([] : List (String × String)) ("/ws" ++ "/bar/baz.js") = none ∧
      lookupA [("/ws/bar/baz.js", "/ws/bar/baz.ts")] ("/ws" ++ "/bar/baz.js") =
        some "/ws/bar/baz.ts" ∧
      "/ws/bar/baz.ts" ∈ ["/ws/bar/baz.ts"] ∧
      emitResult ((lookupA [("/ws/bar/baz.ts", [("/ws/bar/baz.js", "t")])]
        "/ws/bar/baz.ts").getD []) ("/ws" ++ "/bar/baz.js") = some "t") ∧
    (serve "/ws"
        ⟨[("/ws/bar/baz.js", "/ws/bar/baz.ts")], ["/ws/bar/baz.ts"],
          [("/ws/bar/baz.ts", [("/ws/bar/baz.js", "t")])]⟩ []
        "/bar/baz.js").result = some "t" := by
  refine ⟨⟨by decide, by decide, by decide, by decide, by decide⟩, ?_⟩
  exact serve_compiles_any_mapped_path "/ws"
    ⟨[("/ws/bar/baz.js", "/ws/bar/baz.ts")], ["/ws/bar/baz.ts"],
      [("/ws/bar/baz.ts", [("/ws/bar/baz.js", "t")])]⟩ [] "/bar/baz.js"
    "/ws/bar/baz.ts" "t" (by decide) (by decide) (by decide) (by decide)
    (by decide)

/-- C5: whenever the requested file cannot be compiled — the path maps to no
module of the TS project, the program has no source file for the module
path, or emit produces no output for the file path — `serve` returns no
result (letting the dev server fall back to default static serving) and the
file cache is unchanged. -/
theorem serve_falls_back_on_failure (ws : String) (an : Analyzer)
    (cache : List (String × String)) (jsPath : String)
    (hnm : strStartsWith jsPath "/node_modules/" = false)
    (hc : lookupA cache (ws ++ jsPath) = none)
    (hfail :
      lookupA an.modulePathOf (ws ++ jsPath) = none ∨
      (∃ m, lookupA an.modulePathOf (ws ++ jsPath) = some m ∧
        m ∉ an.sourceFiles) ∨
      (∃ m, lookupA an.modulePathOf (ws ++ jsPath) = some m ∧
        m ∈ an.sourceFiles ∧
        emitResult ((lookupA an.emitOutputs m).getD []) (ws ++ jsPath) =
          none)) :
    (serve ws an cache jsPath).result = none ∧
    (serve ws an cache jsPath).fileCache = cache := by
  rcases hfail with hm | ⟨m, hm, hs⟩ | ⟨m, hm, hs, he⟩
  · constructor <;> simp [serve, hnm, hc, hm]
  · constructor <;> simp [serve, hnm, hc, hm, hs]
  · constructor <;> simp [serve, hnm, hc, hm, hs, he]

/-- Witness for C5 at a request path that maps to no module. -/
theorem serve_falls_back_on_failure_witness :
    (strStartsWith "/missing.js" "/node_modules/" = false ∧
      lookupA ([] : List (String × String)) ("/ws" ++ "/missing.js") = none ∧
      lookupA (Analyzer.modulePathOf ⟨[], [], []⟩) ("/ws" ++ "/missing.js") =
        none) ∧
    (serve "/ws" ⟨[], [], []⟩ [] "/missing.js").result = none ∧
    (serve "/ws" ⟨[], [], []⟩ [] "/missing.js").fileCache = [] := by
  refine ⟨⟨by decide, by decide, by decide⟩, ?_⟩
  exact serve_falls_back_on_failure "/ws" ⟨[], [], []⟩ [] "/missing.js"
    (by decide) (by decide) (Or.inl (by decide))

/-- C6: every request whose path starts with `/node_modules/` is skipped
immediately: no result, no compilation, and no change to the file cache. -/
theorem serve_skips_node_modules (ws : String) (an : Analyzer)
    (cache : List (String × String)) (jsPath : String)
    (h : strStartsWith jsPath "/node_modules/" = true) :
    serve ws an cache jsPath = ⟨none, cache, false⟩ := by
  simp [serve, h]

/-- Witness for C6 at a concrete dependency path. -/
theorem serve_skips_node_modules_witness :
    strStartsWith "/node_modules/lit/index.js" "/node_modules/" = true ∧
    serve "/ws" ⟨[], [], []⟩ [] "/node_modules/lit/index.js" =
      ⟨none, [], false⟩ :=
  ⟨by decide,
    serve_skips_node_modules "/ws" ⟨[], [], []⟩ [] "/node_modules/lit/index.js"
      (by decide)⟩

/-- C7: the `/story/:path` response is an HTML document containing a module
script whose src is the frame-entrypoint.js URL on the UI server's port,
and an ignition-storyboard element whose src URL is built from the dev
server's lazily populated port followed by the requested story path. -/
theorem story_route_html (ui : Nat) (port path : String) :
    ∃ pre mid post : String,
      storyHtml ui port path =
        pre ++
          ("<script type=\x27module\x27 src=\x27http://localhost:" ++
            toString ui ++ "/frame-entrypoint.js\x27></script>") ++
          mid ++
          ("<ignition-storyboard src=" ++
            ("http://localhost:" ++ port ++ "/" ++ path) ++
            "></ignition-storyboard>") ++
          post := by
  refine ⟨"\n      <!doctype html>\n      <html>\n        <head>\n          ",
    "\n          <style id=\"_defaultStyles\"></style>\n          <style>\n            body, html \x7b\n              margin: 0;\n              padding: 0;\n              width: 100%;\n              height: 100%;\n            \x7d\n            * \x7b\n              box-sizing: border-box;\n            \x7d\n          </style>\n        </head>\n        <body>\n          ",
    "\n        </body>\n      </html>\n    ", ?_⟩
  simp only [storyHtml, storySrcUrl, String.append_assoc]

/-! ### More association-list lemmas -/

theorem lookupA_mem {α β : Type} [DecidableEq α] {m : List (α × β)} {k : α}
    {v : β} (h : lookupA m k = some v) : (k, v) ∈ m := by
  induction m with
  | nil => exact Option.noConfusion h
  | cons e m ih =>
    rcases e with ⟨a, w⟩
    by_cases he : a = k
    · rw [lookupA, if_pos he] at h
      subst he
      rw [← Option.some_inj.mp h]
      exact List.mem_cons_self _ _
    · rw [lookupA, if_neg he] at h
      exact List.mem_cons_of_mem _ (ih h)

theorem lookupA_map_update_self {α β : Type} [DecidableEq α]
    {m : List (α × β)} {k : α} {w : β} (h : lookupA m k = some w) (v : β) :
    lookupA (m.map fun e => if e.1 = k then (k, v) else e) k = some v := by
  induction m with
  | nil => exact Option.noConfusion h
  | cons e m ih =>
    by_cases he : e.1 = k
    · simp [lookupA, he]
    · rw [lookupA, if_neg he] at h
      simpa [lookupA, he] using ih h

theorem lookupA_map_update_ne {α β : Type} [DecidableEq α]
    (m : List (α × β)) (k' k : α) (v : β) (h : k' ≠ k) :
    lookupA (m.map fun e => if e.1 = k' then (k', v) else e) k =
      lookupA m k := by
  induction m with
  | nil => rfl
  | cons e m ih =>
    rcases e with ⟨a, w⟩
    simp only [List.map]
    by_cases hak : a = k'
    · rw [if_pos hak]
      subst hak
      rw [lookupA, lookupA, if_neg h, if_neg h]
      exact ih
    · rw [if_neg hak, lookupA, lookupA]
      by_cases hk : a = k
      · rw [if_pos hk, if_pos hk]
      · rw [if_neg hk, if_neg hk]
        exact ih

theorem lookupA_mapSet_self {α β : Type} [DecidableEq α] (m : List (α × β))
    (k : α) (v : β) : lookupA (mapSet m k v) k = some v := by
  unfold mapSet
  rcases h : lookupA m k with _ | w
  · exact lookupA_cons_self m k v
  · exact lookupA_map_update_self h v

theorem lookupA_mapSet_ne {α β : Type} [DecidableEq α] (m : List (α × β))
    (k' k : α) (v : β) (h : k' ≠ k) :
    lookupA (mapSet m k' v) k = lookupA m k := by
  unfold mapSet
  rcases h1 : lookupA m k' with _ | w
  · exact lookupA_cons_ne m k k' v h
  · exact lookupA_map_update_ne m k' k v h

theorem mem_mapSet {α β : Type} [DecidableEq α] {m : List (α × β)} {k a : α}
    {v b : β} (h : (a, b) ∈ mapSet m k v) :
    (a = k ∧ b = v) ∨ ∃ b0, (a, b0) ∈ m := by
  unfold mapSet at h
  rcases h1 : lookupA m k with _ | w <;> rw [h1] at h
  · rcases List.mem_cons.mp h with h2 | h2
    · exact Or.inl ⟨congrArg Prod.fst h2, congrArg Prod.snd h2⟩
    · exact Or.inr ⟨b, h2⟩
  · rcases List.mem_map.mp h with ⟨e, he, hfe⟩
    by_cases hek : e.1 = k
    · rw [if_pos hek] at hfe
      exact Or.inl ⟨(congrArg Prod.fst hfe).symm, (congrArg Prod.snd hfe).symm⟩
    · rw [if_neg hek] at hfe
      exact Or.inr ⟨b, by rw [← hfe]; exact he⟩

theorem countA_cons_self {α : Type} [DecidableEq α] (l : List α) (a : α) :
    countA (a :: l) a = countA l a + 1 := by
  simp [countA]

theorem countA_cons_ne {α : Type} [DecidableEq α] (l : List α) (a b : α)
    (h : a ≠ b) : countA (a :: l) b = countA l b := by
  simp [countA, h]

/-! ### Lemmas about pending startups -/

theorem removePending_sublist (l : List (String × Nat)) (p : String)
    (d : Nat) : List.Sublist (removePending l p d) l := by
  induction l with
  | nil => exact List.Sublist.refl []
  | cons x l ih =>
    rw [removePending]
    by_cases hx : x = (p, d)
    · rw [if_pos hx]
      exact List.sublist_cons_self x l
    · rw [if_neg hx]
      exact List.Sublist.cons₂ x ih

theorem mem_removePending {l : List (String × Nat)} {p : String} {d : Nat}
    {x : String × Nat} (h : x ∈ removePending l p d) : x ∈ l :=
  (removePending_sublist l p d).subset h

theorem removePending_snd_ne {l : List (String × Nat)} {p q : String}
    {d d' : Nat} (hnd : (l.map Prod.snd).Nodup) (hm : (p, d) ∈ l)
    (h : (q, d') ∈ removePending l p d) : d' ≠ d := by
  induction l with
  | nil => exact absurd h (List.not_mem_nil _)
  | cons x l ih =>
    rw [removePending] at h
    by_cases hx : x = (p, d)
    · rw [if_pos hx] at h
      intro he
      have : d ∈ l.map Prod.snd :=
        List.mem_map.mpr ⟨(q, d'), h, he.symm ▸ rfl⟩
      rw [hx] at hnd
      exact (List.nodup_cons.mp hnd).1 this
    · rw [if_neg hx] at h
      rcases List.mem_cons.mp h with h2 | h2
      · intro he
        have hml : (p, d) ∈ l := by
          rcases List.mem_cons.mp hm with h3 | h3
          · exact absurd h3.symm hx
          · exact h3
        have : d ∈ l.map Prod.snd := List.mem_map.mpr ⟨(p, d), hml, rfl⟩
        have hx2 : x.2 = d := by rw [← h2]; exact he
        rw [← hx2] at this
        exact (List.nodup_cons.mp hnd).1 this
      · have hml : (p, d) ∈ l := by
          rcases List.mem_cons.mp hm with h3 | h3
          · exact absurd h3.symm hx
          · exact h3
        exact ih (List.nodup_cons.mp hnd).2 hml h2

/-! ### Invariant preservation for the `getProjectServer` transition system -/

theorem stepCall_hit {s : ProjectServerState} {p : String} {d : Nat}
    (h : lookupA s.serverCache p = some d) : stepCall s p = (s, d) := by
  simp [stepCall, h]

theorem stepCall_miss {s : ProjectServerState} {p : String}
    (h : lookupA s.serverCache p = none) :
    stepCall s p =
      (⟨(p, s.nextDeferred) :: s.serverCache,
        (s.nextDeferred, DState.pending) :: s.dstate,
        (p, s.nextDeferred) :: s.pendingStarts,
        p :: s.starts,
        s.nextDeferred + 1⟩, s.nextDeferred) := by
  simp [stepCall, h]

theorem pinv_init : PInv initProjectServerState := by
  refine ⟨?_, ?_, ?_, ?_⟩
  · intro p
    simp [initProjectServerState, countA, lookupA]
  · intro p d h
    exact absurd h (List.not_mem_nil _)
  · intro d st h
    exact absurd h (List.not_mem_nil _)
  · simp [initProjectServerState]

theorem pinv_call (s : ProjectServerState) (p : String) (h : PInv s) :
    PInv (stepCall s p).1 := by
  rcases h1 : lookupA s.serverCache p with _ | d
  · rw [stepCall_miss h1]
    refine ⟨?_, ?_, ?_, ?_⟩
    · intro q
      by_cases hq : p = q
      · subst hq
        rw [countA_cons_self, lookupA_cons_self]
        have h0 := h.startsCache p
        rw [h1] at h0
        simp at h0
        simp [h0]
      · rw [countA_cons_ne _ _ _ hq, lookupA_cons_ne _ _ _ _ hq]
        exact h.startsCache q
    · intro q d' hqd'
      rcases List.mem_cons.mp hqd' with h2 | h2
      · have hd' : d' = s.nextDeferred := congrArg Prod.snd h2
        subst hd'
        exact lookupA_cons_self _ _ _
      · have hold := h.pendingPending q d' h2
        have hlt : d' < s.nextDeferred :=
          h.dstateFresh d' _ (lookupA_mem hold)
        have hne : s.nextDeferred ≠ d' := fun he => absurd (he ▸ hlt) (lt_irrefl _)
        rw [lookupA_cons_ne _ _ _ _ hne]
        exact hold
    · intro d' st hmem
      show d' < s.nextDeferred + 1
      rcases List.mem_cons.mp hmem with h2 | h2
      · have : d' = s.nextDeferred := congrArg Prod.fst h2
        omega
      · have := h.dstateFresh d' st h2
        omega
    · refine List.nodup_cons.mpr ⟨?_, h.pendingSndNodup⟩
      intro hmem
      rcases List.mem_map.mp hmem with ⟨⟨q, d'⟩, hq, hsnd⟩
      have hold := h.pendingPending q d' hq
      have hlt : d' < s.nextDeferred := h.dstateFresh d' _ (lookupA_mem hold)
      rw [show d' = s.nextDeferred from hsnd] at hlt
      exact absurd hlt (lt_irrefl _)
  · rw [stepCall_hit h1]
    exact h

theorem pinv_complete (s : ProjectServerState) (p : String) (d : Nat)
    (st : DState) (h : PInv s) (hm : (p, d) ∈ s.pendingStarts) :
    PInv { s with
      dstate := mapSet s.dstate d st,
      pendingStarts := removePending s.pendingStarts p d } := by
  refine ⟨h.startsCache, ?_, ?_, ?_⟩
  · intro q d' hqd'
    have hsub : (q, d') ∈ s.pendingStarts := mem_removePending hqd'
    have hne : d' ≠ d := removePending_snd_ne h.pendingSndNodup hm hqd'
    show lookupA (mapSet s.dstate d st) d' = some DState.pending
    rw [lookupA_mapSet_ne _ _ _ _ (Ne.symm hne)]
    exact h.pendingPending q d' hsub
  · intro d' st' hmem
    rcases mem_mapSet hmem with ⟨hdk, _⟩ | ⟨st0, hmem0⟩
    · subst hdk
      have hp := h.pendingPending p d' hm
      exact h.dstateFresh d' _ (lookupA_mem hp)
    · exact h.dstateFresh d' st0 hmem0
  · exact List.Nodup.sublist
      ((removePending_sublist s.pendingStarts p d).map Prod.snd)
      h.pendingSndNodup

theorem pinv_step (s : ProjectServerState) (e : PEvent) (h : PInv s) :
    PInv (step s e).1 := by
  cases e with
  | call p => exact pinv_call s p h
  | startupOk p d srv =>
    simp only [step]
    by_cases hm : (p, d) ∈ s.pendingStarts
    · rw [if_pos hm]
      exact pinv_complete s p d (DState.resolved srv) h hm
    · rw [if_neg hm]
      exact h
  | startupErr p d err =>
    simp only [step]
    by_cases hm : (p, d) ∈ s.pendingStarts
    · rw [if_pos hm]
      exact pinv_complete s p d (DState.rejected err) h hm
    · rw [if_neg hm]
      exact h

theorem pinv_run (s : ProjectServerState) (evs : List PEvent) (h : PInv s) :
    PInv (run s evs).1 := by
  induction evs generalizing s with
  | nil => exact h
  | cons e es ih => exact ih (step s e).1 (pinv_step s e h)

/-! ### Monotonicity of the server cache and deferred states -/

theorem step_cache_mono (s : ProjectServerState) (e : PEvent) (p : String)
    (d : Nat) (h : lookupA s.serverCache p = some d) :
    lookupA (step s e).1.serverCache p = some d := by
  cases e with
  | call q =>
    show lookupA (stepCall s q).1.serverCache p = some d
    rcases h1 : lookupA s.serverCache q with _ | d0
    · rw [stepCall_miss h1]
      have hne : q ≠ p := by
        intro he
        rw [he, h] at h1
        exact Option.noConfusion h1
      show lookupA ((q, s.nextDeferred) :: s.serverCache) p = some d
      rw [lookupA_cons_ne _ _ _ _ hne]
      exact h
    · rw [stepCall_hit h1]
      exact h
  | startupOk q d0 srv =>
    simp only [step]
    by_cases hm : (q, d0) ∈ s.pendingStarts
    · rw [if_pos hm]
      exact h
    · rw [if_neg hm]
      exact h
  | startupErr q d0 err =>
    simp only [step]
    by_cases hm : (q, d0) ∈ s.pendingStarts
    · rw [if_pos hm]
      exact h
    · rw [if_neg hm]
      exact h

theorem run_cache_mono (s : ProjectServerState) (evs : List PEvent)
    (p : String) (d : Nat) (h : lookupA s.serverCache p = some d) :
    lookupA (run s evs).1.serverCache p = some d := by
  induction evs generalizing s with
  | nil => exact h
  | cons e es ih => exact ih (step s e).1 (step_cache_mono s e p d h)

theorem step_rejected_mono (s : ProjectServerState) (e : PEvent) (d err : Nat)
    (hI : PInv s) (h : lookupA s.dstate d = some (DState.rejected err)) :
    lookupA (step s e).1.dstate d = some (DState.rejected err) := by
  cases e with
  | call q =>
    show lookupA (stepCall s q).1.dstate d = some (DState.rejected err)
    rcases h1 : lookupA s.serverCache q with _ | d0
    · rw [stepCall_miss h1]
      have hlt : d < s.nextDeferred := hI.dstateFresh d _ (lookupA_mem h)
      have hne : s.nextDeferred ≠ d := fun he => absurd (he ▸ hlt) (lt_irrefl _)
      show lookupA ((s.nextDeferred, DState.pending) :: s.dstate) d =
        some (DState.rejected err)
      rw [lookupA_cons_ne _ _ _ _ hne]
      exact h
    · rw [stepCall_hit h1]
      exact h
  | startupOk q d0 srv =>
    simp only [step]
    by_cases hm : (q, d0) ∈ s.pendingStarts
    · rw [if_pos hm]
      have hp := hI.pendingPending q d0 hm
      have hne : d0 ≠ d := by
        intro he
        rw [he, h] at hp
        exact DState.noConfusion (Option.some_inj.mp hp)
      show lookupA (mapSet s.dstate d0 (DState.resolved srv)) d =
        some (DState.rejected err)
      rw [lookupA_mapSet_ne _ _ _ _ hne]
      exact h
    · rw [if_neg hm]
      exact h
  | startupErr q d0 err0 =>
    simp only [step]
    by_cases hm : (q, d0) ∈ s.pendingStarts
    · rw [if_pos hm]
      have hp := hI.pendingPending q d0 hm
      have hne : d0 ≠ d := by
        intro he
        rw [he, h] at hp
        exact DState.noConfusion (Option.some_inj.mp hp)
      show lookupA (mapSet s.dstate d0 (DState.rejected err0)) d =
        some (DState.rejected err)
      rw [lookupA_mapSet_ne _ _ _ _ hne]
      exact h
    · rw [if_neg hm]
      exact h

theorem run_rejected_mono (s : ProjectServerState) (evs : List PEvent)
    (d err : Nat) (hI : PInv s)
    (h : lookupA s.dstate d = some (DState.rejected err)) :
    lookupA (run s evs).1.dstate d = some (DState.rejected err) := by
  induction evs generalizing s with
  | nil => exact h
  | cons e es ih =>
    exact ih (step s e).1 (pinv_step s e hI) (step_rejected_mono s e d err hI h)

theorem step_starts_stable (s : ProjectServerState) (e : PEvent) (p : String)
    (d : Nat) (h : lookupA s.serverCache p = some d) :
    countA (step s e).1.starts p = countA s.starts p := by
  cases e with
  | call q =>
    show countA (stepCall s q).1.starts p = countA s.starts p
    rcases h1 : lookupA s.serverCache q with _ | d0
    · rw [stepCall_miss h1]
      have hne : q ≠ p := by
        intro he
        rw [he, h] at h1
        exact Option.noConfusion h1
      show countA (q :: s.starts) p = countA s.starts p
      exact countA_cons_ne _ _ _ hne
    · rw [stepCall_hit h1]
  | startupOk q d0 srv =>
    simp only [step]
    by_cases hm : (q, d0) ∈ s.pendingStarts
    · rw [if_pos hm]
    · rw [if_neg hm]
  | startupErr q d0 err =>
    simp only [step]
    by_cases hm : (q, d0) ∈ s.pendingStarts
    · rw [if_pos hm]
    · rw [if_neg hm]

theorem run_starts_stable (s : ProjectServerState) (evs : List PEvent)
    (p : String) (d : Nat) (h : lookupA s.serverCache p = some d) :
    countA (run s evs).1.starts p = countA s.starts p := by
  induction evs generalizing s with
  | nil => rfl
  | cons e es ih =>
    exact (ih (step s e).1 (step_cache_mono s e p d h)).trans
      (step_starts_stable s e p d h)

/-! ### What `getProjectServer` callers receive -/

theorem run_log_ret (s : ProjectServerState) (evs : List PEvent) (p : String)
    (d : Nat) (h : lookupA s.serverCache p = some d) :
    ∀ d', (p, d') ∈ (run s evs).2 → d' = d := by
  induction evs generalizing s with
  | nil =>
    intro d' hd'
    exact absurd hd' (List.not_mem_nil _)
  | cons e es ih =>
    intro d' hd'
    rcases List.mem_append.mp hd' with hm | hm
    · cases e with
      | call q =>
        have hm2 : (p, d') = (q, (stepCall s q).2) := List.mem_singleton.mp hm
        have hq : q = p := (congrArg Prod.fst hm2).symm
        subst hq
        rw [stepCall_hit h] at hm2
        exact congrArg Prod.snd hm2
      | startupOk q d0 srv =>
        revert hm
        simp only [step]
        by_cases hmem : (q, d0) ∈ s.pendingStarts
        · rw [if_pos hmem]
          intro hm
          exact absurd hm (List.not_mem_nil _)
        · rw [if_neg hmem]
          intro hm
          exact absurd hm (List.not_mem_nil _)
      | startupErr q d0 err =>
        revert hm
        simp only [step]
        by_cases hmem : (q, d0) ∈ s.pendingStarts
        · rw [if_pos hmem]
          intro hm
          exact absurd hm (List.not_mem_nil _)
        · rw [if_neg hmem]
          intro hm
          exact absurd hm (List.not_mem_nil _)
    · exact ih (step s e).1 (step_cache_mono s e p d h) d' hm

theorem run_log_cache (s : ProjectServerState) (evs : List PEvent)
    (p : String) (d : Nat) (hlog : (p, d) ∈ (run s evs).2) :
    lookupA (run s evs).1.serverCache p = some d := by
  induction evs generalizing s with
  | nil => exact absurd hlog (List.not_mem_nil _)
  | cons e es ih =>
    rcases List.mem_append.mp hlog with hm | hm
    · cases e with
      | call q =>
        have hm2 : (p, d) = (q, (stepCall s q).2) := List.mem_singleton.mp hm
        have hq : q = p := (congrArg Prod.fst hm2).symm
        subst hq
        have hd : d = (stepCall s q).2 := congrArg Prod.snd hm2
        show lookupA (run (stepCall s q).1 es).1.serverCache q = some d
        rcases h1 : lookupA s.serverCache q with _ | d0
        · rw [stepCall_miss h1] at hd ⊢
          exact run_cache_mono _ es q d
            (by rw [hd]; exact lookupA_cons_self _ _ _)
        · rw [stepCall_hit h1] at hd ⊢
          exact run_cache_mono _ es q d (by rw [hd]; exact h1)
      | startupOk q d0 srv =>
        revert hm
        simp only [step]
        by_cases hmem : (q, d0) ∈ s.pendingStarts
        · rw [if_pos hmem]
          intro hm
          exact absurd hm (List.not_mem_nil _)
        · rw [if_neg hmem]
          intro hm
          exact absurd hm (List.not_mem_nil _)
      | startupErr q d0 err =>
        revert hm
        simp only [step]
        by_cases hmem : (q, d0) ∈ s.pendingStarts
        · rw [if_pos hmem]
          intro hm
          exact absurd hm (List.not_mem_nil _)
        · rw [if_neg hmem]
          intro hm
          exact absurd hm (List.not_mem_nil _)
    · exact ih (step s e).1 hm

/-! ### Claims C1 and C2 -/

/-- C1: for every workspace path, at most one dev-server startup is ever
initiated over any interleaving of `getProjectServer` calls and startup
completions; every caller for a path receives the deferred cached for that
path; hence any two callers for the same path receive the same deferred.
The atomicity of a `call` step embeds the fact that the `Deferred` is
inserted into `serverCache` before the first `await`. -/
theorem getProjectServer_single_start (evs : List PEvent) (p : String)
    (d₁ d₂ : Nat) :
    countA (run initProjectServerState evs).1.starts p ≤ 1 ∧
    ((p, d₁) ∈ (run initProjectServerState evs).2 →
      lookupA (run initProjectServerState evs).1.serverCache p = some d₁) ∧
    ((p, d₁) ∈ (run initProjectServerState evs).2 →
      (p, d₂) ∈ (run initProjectServerState evs).2 → d₁ = d₂) := by
  have hI : PInv (run initProjectServerState evs).1 :=
    pinv_run initProjectServerState evs pinv_init
  refine ⟨?_, ?_, ?_⟩
  · rw [hI.startsCache p]
    by_cases hs : (lookupA (run initProjectServerState evs).1.serverCache
        p).isSome
    · rw [if_pos hs]
    · rw [if_neg hs]
      omega
  · exact fun h => run_log_cache initProjectServerState evs p d₁ h
  · intro h1 h2
    have e1 := run_log_cache initProjectServerState evs p d₁ h1
    have e2 := run_log_cache initProjectServerState evs p d₂ h2
    rw [e1] at e2
    exact Option.some_inj.mp e2

/-- Witness for C1 on the trace: two calls for the same workspace path. -/
theorem getProjectServer_single_start_witness :
    countA (run initProjectServerState
      [PEvent.call "/a", PEvent.call "/a"]).1.starts "/a" ≤ 1 ∧
    (("/a", 0) ∈ (run initProjectServerState
        [PEvent.call "/a", PEvent.call "/a"]).2 →
      lookupA (run initProjectServerState
        [PEvent.call "/a", PEvent.call "/a"]).1.serverCache "/a" = some 0) ∧
    (("/a", 0) ∈ (run initProjectServerState
        [PEvent.call "/a", PEvent.call "/a"]).2 →
      ("/a", 0) ∈ (run initProjectServerState
        [PEvent.call "/a", PEvent.call "/a"]).2 → 0 = 0) :=
  getProjectServer_single_start [PEvent.call "/a", PEvent.call "/a"] "/a" 0 0

/-- C2: once a startup for a workspace path has failed — its cached deferred
is rejected — the deferred stays in the cache forever, stays rejected with
the same error, every later caller for that path receives that same
deferred, and no further startup for that path is ever initiated. -/
theorem getProjectServer_failure_sticky (evs₁ evs₂ : List PEvent)
    (p : String) (d err d' : Nat)
    (hc : lookupA (run initProjectServerState evs₁).1.serverCache p = some d)
    (hr : lookupA (run initProjectServerState evs₁).1.dstate d =
      some (DState.rejected err)) :
    lookupA (run (run initProjectServerState evs₁).1 evs₂).1.serverCache p =
      some d ∧
    lookupA (run (run initProjectServerState evs₁).1 evs₂).1.dstate d =
      some (DState.rejected err) ∧
    ((p, d') ∈ (run (run initProjectServerState evs₁).1 evs₂).2 → d' = d) ∧
    countA (run (run initProjectServerState evs₁).1 evs₂).1.starts p =
      countA (run initProjectServerState evs₁).1.starts p := by
  have hI : PInv (run initProjectServerState evs₁).1 :=
    pinv_run initProjectServerState evs₁ pinv_init
  exact ⟨run_cache_mono _ evs₂ p d hc,
    run_rejected_mono _ evs₂ d err hI hr,
    run_log_ret _ evs₂ p d hc d',
    run_starts_stable _ evs₂ p d hc⟩

/-- Witness for C2 on the trace: a call whose startup fails, followed by a
second call for the same workspace path. -/
theorem getProjectServer_failure_sticky_witness :
    (lookupA (run initProjectServerState
        [PEvent.call "/a", PEvent.startupErr "/a" 0 7]).1.serverCache "/a" =
      some 0 ∧
    lookupA (run initProjectServerState
        [PEvent.call "/a", PEvent.startupErr "/a" 0 7]).1.dstate 0 =
      some (DState.rejected 7)) ∧
    (lookupA (run (run initProjectServerState
        [PEvent.call "/a", PEvent.startupErr "/a" 0 7]).1
        [PEvent.call "/a"]).1.serverCache "/a" = some 0 ∧
    lookupA (run (run initProjectServerState
        [PEvent.call "/a", PEvent.startupErr "/a" 0 7]).1
        [PEvent.call "/a"]).1.dstate 0 = some (DState.rejected 7) ∧
    (("/a", 0) ∈ (run (run initProjectServerState
        [PEvent.call "/a", PEvent.startupErr "/a" 0 7]).1
        [PEvent.call "/a"]).2 → 0 = 0) ∧
    countA (run (run initProjectServerState
        [PEvent.call "/a", PEvent.startupErr "/a" 0 7]).1
        [PEvent.call "/a"]).1.starts "/a" =
      countA (run initProjectServerState
        [PEvent.call "/a", PEvent.startupErr "/a" 0 7]).1.starts "/a") := by
  refine ⟨⟨by decide, by decide⟩, ?_⟩
  exact getProjectServer_failure_sticky
    [PEvent.call "/a", PEvent.startupErr "/a" 0 7] [PEvent.call "/a"]
    "/a" 0 7 0 (by decide) (by decide)

/-! ### Lemmas about the listener bookkeeping -/

theorem lookupA_mapDelete_self {α β : Type} [DecidableEq α]
    (m : List (α × β)) (k : α) : lookupA (mapDelete m k) k = none := by
  induction m with
  | nil => rfl
  | cons x m ih =>
    rw [mapDelete]
    by_cases hx : x.1 = k
    · rw [if_pos hx]
      exact ih
    · rw [if_neg hx, lookupA, if_neg hx]
      exact ih

theorem lookupA_mapDelete_ne {α β : Type} [DecidableEq α]
    (m : List (α × β)) (k' k : α) (h : k' ≠ k) :
    lookupA (mapDelete m k') k = lookupA m k := by
  induction m with
  | nil => rfl
  | cons x m ih =>
    rw [mapDelete]
    by_cases hx : x.1 = k'
    · have hxk : ¬(x.1 = k) := by rw [hx]; exact h
      rw [if_pos hx, lookupA, if_neg hxk]
      exact ih
    · rw [if_neg hx, lookupA, lookupA]
      by_cases hk : x.1 = k
      · rw [if_pos hk, if_pos hk]
      · rw [if_neg hk, if_neg hk]
        exact ih

theorem lookupA_leInsert_self (s : ListenerState) (n : Nat) :
    lookupA (leInsert s n) n = some (nodeEvents s n) := by
  unfold leInsert nodeEvents
  rcases h : lookupA s.listenedEvents n with _ | m
  · simp [leInsert, h, lookupA_cons_self]
  · simp [leInsert, h]

theorem lookupA_leInsert_ne (s : ListenerState) (n n' : Nat) (h : n' ≠ n) :
    lookupA (leInsert s n) n' = lookupA s.listenedEvents n' := by
  unfold leInsert
  rcases h1 : lookupA s.listenedEvents n with _ | m
  · exact lookupA_cons_ne _ _ _ _ (Ne.symm h)
  · rfl

theorem trackedHandler_eq (s : ListenerState) (n : Nat) (e : String) :
    trackedHandler s n e = lookupA (nodeEvents s n) e := by
  unfold trackedHandler nodeEvents
  rcases h : lookupA s.listenedEvents n with _ | m
  · simp [leInsert, h, lookupA_cons_self]
  · simp [leInsert, h]

theorem filter_removeReg_ne (l : List ((Nat × String) × Nat)) (n n' : Nat)
    (e e' : String) (h : Nat) (hk : ¬((n', e') = (n, e))) :
    (removeReg l n e h).filter (fun r => r.1 = (n', e')) =
      l.filter (fun r => r.1 = (n', e')) := by
  induction l with
  | nil => rfl
  | cons x l ih =>
    rw [removeReg]
    by_cases hx : x = ((n, e), h)
    · rw [if_pos hx, List.filter_cons]
      have hnp : ¬(x.1 = (n', e')) := by
        rw [hx]
        intro hc
        exact hk hc.symm
      simp [hnp]
    · rw [if_neg hx, List.filter_cons, List.filter_cons]
      by_cases hp : x.1 = (n', e')
      · simp [hp, ih]
      · simp [hp, ih]

theorem filter_removeReg_self (l : List ((Nat × String) × Nat)) (n : Nat)
    (e : String) (h : Nat)
    (hf : l.filter (fun r => r.1 = (n, e)) = [((n, e), h)]) :
    (removeReg l n e h).filter (fun r => r.1 = (n, e)) = [] := by
  induction l with
  | nil => rfl
  | cons x l ih =>
    rw [removeReg]
    by_cases hx : x = ((n, e), h)
    · rw [if_pos hx]
      rw [List.filter_cons] at hf
      have hpx : x.1 = (n, e) := by rw [hx]
      simp only [hpx, decide_True, if_true] at hf
      have := List.cons_eq_cons.mp hf
      exact this.2
    · rw [if_neg hx, List.filter_cons]
      rw [List.filter_cons] at hf
      by_cases hp : x.1 = (n, e)
      · simp only [hp, decide_True, if_true] at hf
        have := List.cons_eq_cons.mp hf
        exact absurd this.1 hx
      · simp only [hp, decide_False, if_false] at hf
        simp only [hp, decide_False, if_false]
        exact ih hf

/-! ### Case equations for `addOrUpdateEventListener` -/

theorem addOrUpdate_new (s : ListenerState) (n : Nat) (e : String) (l : Nat)
    (h : lookupA (nodeEvents s n) e = none) :
    addOrUpdateEventListener s n e (some l) =
      ⟨mapSet (leInsert s n) n (mapSet (nodeEvents s n) e s.nextHandler),
        mapSet s.handleFn s.nextHandler l,
        ((n, e), s.nextHandler) :: s.registered,
        s.nextHandler + 1, s.addCalls + 1⟩ := by
  simp [addOrUpdateEventListener, h]

theorem addOrUpdate_upd (s : ListenerState) (n : Nat) (e : String) (l h : Nat)
    (hh : lookupA (nodeEvents s n) e = some h) :
    addOrUpdateEventListener s n e (some l) =
      ⟨leInsert s n, mapSet s.handleFn h l, s.registered, s.nextHandler,
        s.addCalls⟩ := by
  simp [addOrUpdateEventListener, hh]

theorem addOrUpdate_remove (s : ListenerState) (n : Nat) (e : String) (h : Nat)
    (hh : lookupA (nodeEvents s n) e = some h) :
    addOrUpdateEventListener s n e none =
      ⟨mapSet (leInsert s n) n (mapDelete (nodeEvents s n) e),
        s.handleFn, removeReg s.registered n e h, s.nextHandler,
        s.addCalls⟩ := by
  simp [addOrUpdateEventListener, hh]

theorem addOrUpdate_noop (s : ListenerState) (n : Nat) (e : String)
    (h : lookupA (nodeEvents s n) e = none) :
    addOrUpdateEventListener s n e none =
      ⟨leInsert s n, s.handleFn, s.registered, s.nextHandler, s.addCalls⟩ := by
  simp [addOrUpdateEventListener, h]

/-! ### Tracked handlers after a state change -/

theorem tracked_lookup_mapSet (s : ListenerState) (n : Nat)
    (M : List (String × Nat)) (n' : Nat) (e' : String) :
    lookupA ((lookupA (mapSet (leInsert s n) n M) n').getD []) e' =
      if n' = n then lookupA M e' else trackedHandler s n' e' := by
  by_cases hn : n' = n
  · subst hn
    rw [lookupA_mapSet_self, if_pos rfl]
    rfl
  · rw [lookupA_mapSet_ne _ _ _ _ (fun he => hn he.symm),
      lookupA_leInsert_ne s n n' hn, if_neg hn]
    rfl

theorem tracked_lookup_leInsert (s : ListenerState) (n n' : Nat)
    (e' : String) :
    lookupA ((lookupA (leInsert s n) n').getD []) e' =
      trackedHandler s n' e' := by
  by_cases hn : n' = n
  · subst hn
    rw [lookupA_leInsert_self]
    exact (trackedHandler_eq s n' e').symm
  · rw [lookupA_leInsert_ne s n n' hn]
    rfl

/-! ### Filtering registrations -/

theorem filter_cons_key_self (reg : List ((Nat × String) × Nat)) (n : Nat)
    (e : String) (h : Nat) :
    ((((n, e), h)) :: reg).filter (fun r => r.1 = (n, e)) =
      ((n, e), h) :: reg.filter (fun r => r.1 = (n, e)) := by
  simp [List.filter_cons]

theorem filter_cons_key_ne (reg : List ((Nat × String) × Nat)) (n n' : Nat)
    (e e' : String) (h : Nat) (hk : ¬((n, e) = (n', e'))) :
    ((((n, e), h)) :: reg).filter (fun r => r.1 = (n', e')) =
      reg.filter (fun r => r.1 = (n', e')) := by
  simp [List.filter_cons, hk]

/-! ### Preservation of the listener invariant -/

theorem linv_addOrUpdate (s : ListenerState) (n : Nat) (e : String)
    (lis : Option Nat) (hI : LInv s) :
    LInv (addOrUpdateEventListener s n e lis) := by
  cases lis with
  | some l =>
    rcases hh : lookupA (nodeEvents s n) e with _ | h
    · rw [addOrUpdate_new s n e l hh]
      refine ⟨fun n' e' => ?_⟩
      have ht : trackedHandler
          (⟨mapSet (leInsert s n) n (mapSet (nodeEvents s n) e s.nextHandler),
            mapSet s.handleFn s.nextHandler l,
            ((n, e), s.nextHandler) :: s.registered,
            s.nextHandler + 1, s.addCalls + 1⟩ : ListenerState) n' e' =
          if n' = n then lookupA (mapSet (nodeEvents s n) e s.nextHandler) e'
          else trackedHandler s n' e' :=
        tracked_lookup_mapSet s n _ n' e'
      by_cases hk : (n', e') = (n, e)
      · have hn : n' = n := congrArg Prod.fst hk
        have he : e' = e := congrArg Prod.snd hk
        subst hn
        subst he
        rw [ht, if_pos rfl, lookupA_mapSet_self]
        show (((n', e'), s.nextHandler) :: s.registered).filter
            (fun r => r.1 = (n', e')) = [((n', e'), s.nextHandler)]
        rw [filter_cons_key_self]
        have h0 := hI.regTracked n' e'
        rw [trackedHandler_eq, hh] at h0
        rw [show s.registered.filter (fun r => r.1 = (n', e')) =
          regList s n' e' from rfl, h0]
      · rw [ht]
        have hreg : regList
            (⟨mapSet (leInsert s n) n
                (mapSet (nodeEvents s n) e s.nextHandler),
              mapSet s.handleFn s.nextHandler l,
              ((n, e), s.nextHandler) :: s.registered,
              s.nextHandler + 1, s.addCalls + 1⟩ : ListenerState) n' e' =
            regList s n' e' :=
          filter_cons_key_ne s.registered n n' e e' s.nextHandler
            (fun he => hk he.symm)
        rw [hreg]
        by_cases hn : n' = n
        · subst hn
          have he : ¬(e = e') := by
            intro he
            exact hk (by rw [he])
          rw [if_pos rfl, lookupA_mapSet_ne _ _ _ _ he,
            ← trackedHandler_eq s n' e']
          exact hI.regTracked n' e'
        · rw [if_neg hn]
          exact hI.regTracked n' e'
    · rw [addOrUpdate_upd s n e l h hh]
      refine ⟨fun n' e' => ?_⟩
      have ht : trackedHandler
          (⟨leInsert s n, mapSet s.handleFn h l, s.registered, s.nextHandler,
            s.addCalls⟩ : ListenerState) n' e' = trackedHandler s n' e' :=
        tracked_lookup_leInsert s n n' e'
      rw [ht]
      exact hI.regTracked n' e'
  | none =>
    rcases hh : lookupA (nodeEvents s n) e with _ | h
    · rw [addOrUpdate_noop s n e hh]
      refine ⟨fun n' e' => ?_⟩
      have ht : trackedHandler
          (⟨leInsert s n, s.handleFn, s.registered, s.nextHandler,
            s.addCalls⟩ : ListenerState) n' e' = trackedHandler s n' e' :=
        tracked_lookup_leInsert s n n' e'
      rw [ht]
      exact hI.regTracked n' e'
    · rw [addOrUpdate_remove s n e h hh]
      refine ⟨fun n' e' => ?_⟩
      have ht : trackedHandler
          (⟨mapSet (leInsert s n) n (mapDelete (nodeEvents s n) e),
            s.handleFn, removeReg s.registered n e h, s.nextHandler,
            s.addCalls⟩ : ListenerState) n' e' =
          if n' = n then lookupA (mapDelete (nodeEvents s n) e) e'
          else trackedHandler s n' e' :=
        tracked_lookup_mapSet s n _ n' e'
      by_cases hk : (n', e') = (n, e)
      · have hn : n' = n := congrArg Prod.fst hk
        have he : e' = e := congrArg Prod.snd hk
        subst hn
        subst he
        rw [ht, if_pos rfl, lookupA_mapDelete_self]
        have h0 := hI.regTracked n' e'
        rw [trackedHandler_eq, hh] at h0
        show (removeReg s.registered n' e' h).filter
            (fun r => r.1 = (n', e')) = []
        exact filter_removeReg_self s.registered n' e' h h0
      · rw [ht]
        have hreg : regList
            (⟨mapSet (leInsert s n) n (mapDelete (nodeEvents s n) e),
              s.handleFn, removeReg s.registered n e h, s.nextHandler,
              s.addCalls⟩ : ListenerState) n' e' = regList s n' e' :=
          filter_removeReg_ne s.registered n n' e e' h hk
        rw [hreg]
        by_cases hn : n' = n
        · subst hn
          have he : ¬(e = e') := by
            intro he
            exact hk (by rw [he])
          rw [if_pos rfl, lookupA_mapDelete_ne _ _ _ he,
            ← trackedHandler_eq s n' e']
          exact hI.regTracked n' e'
        · rw [if_neg hn]
          exact hI.regTracked n' e'

theorem linv_init : LInv initListenerState := by
  refine ⟨fun n e => ?_⟩
  rfl

theorem linv_run (calls : List LCall) : LInv (runListeners calls) := by
  have hgen : ∀ (s : ListenerState), LInv s →
      LInv (calls.foldl
        (fun s c => addOrUpdateEventListener s c.node c.event c.listener) s) := by
    induction calls with
    | nil => exact fun s h => h
    | cons c cs ih =>
      intro s h
      exact ih _ (linv_addOrUpdate s c.node c.event c.listener h)
  exact hgen initListenerState linv_init

/-- C8: after any sequence of `addOrUpdateEventListener` calls, each
`(node, event)` pair has at most one registered listener; a further call
with a defined listener registers exactly one new handler when none is
tracked (one `addEventListener` call, the handler tracked and registered,
its `handleEvent` pointing at the listener), or mutates the tracked
handler's `handleEvent` in place without touching the node's registrations
or calling `addEventListener`; and a call with an undefined listener
removes the tracked handler from the node and deletes its map entry. -/
theorem addOrUpdateEventListener_single_listener (calls : List LCall)
    (n : Nat) (e : String) (l h : Nat) :
    (regList (runListeners calls) n e).length ≤ 1 ∧
    (trackedHandler (runListeners calls) n e = none →
      (addOrUpdateEventListener (runListeners calls) n e (some l)).addCalls =
        (runListeners calls).addCalls + 1 ∧
      trackedHandler (addOrUpdateEventListener (runListeners calls) n e
        (some l)) n e = some (runListeners calls).nextHandler ∧
      regList (addOrUpdateEventListener (runListeners calls) n e (some l))
        n e = [((n, e), (runListeners calls).nextHandler)] ∧
      lookupA (addOrUpdateEventListener (runListeners calls) n e
        (some l)).handleFn (runListeners calls).nextHandler = some l) ∧
    (trackedHandler (runListeners calls) n e = some h →
      (addOrUpdateEventListener (runListeners calls) n e (some l)).addCalls =
        (runListeners calls).addCalls ∧
      (addOrUpdateEventListener (runListeners calls) n e
        (some l)).registered = (runListeners calls).registered ∧
      trackedHandler (addOrUpdateEventListener (runListeners calls) n e
        (some l)) n e = some h ∧
      lookupA (addOrUpdateEventListener (runListeners calls) n e
        (some l)).handleFn h = some l) ∧
    (trackedHandler (runListeners calls) n e = some h →
      (addOrUpdateEventListener (runListeners calls) n e none).addCalls =
        (runListeners calls).addCalls ∧
      trackedHandler (addOrUpdateEventListener (runListeners calls) n e
        none) n e = none ∧
      regList (addOrUpdateEventListener (runListeners calls) n e none)
        n e = []) := by
  have hI : LInv (runListeners calls) := linv_run calls
  refine ⟨?_, ?_, ?_, ?_⟩
  · have h0 := hI.regTracked n e
    rcases htr : trackedHandler (runListeners calls) n e with _ | h'
    · rw [htr] at h0
      rw [h0]
      exact Nat.zero_le 1
    · rw [htr] at h0
      rw [h0]
      exact le_refl 1
  · intro htr
    have hh : lookupA (nodeEvents (runListeners calls) n) e = none := by
      rw [← trackedHandler_eq]
      exact htr
    rw [addOrUpdate_new (runListeners calls) n e l hh]
    refine ⟨rfl, ?_, ?_, ?_⟩
    · rw [show trackedHandler
        (⟨mapSet (leInsert (runListeners calls) n) n
            (mapSet (nodeEvents (runListeners calls) n) e
              (runListeners calls).nextHandler),
          mapSet (runListeners calls).handleFn
            (runListeners calls).nextHandler l,
          ((n, e), (runListeners calls).nextHandler) ::
            (runListeners calls).registered,
          (runListeners calls).nextHandler + 1,
          (runListeners calls).addCalls + 1⟩ : ListenerState) n e =
          if n = n then lookupA (mapSet (nodeEvents (runListeners calls) n) e
            (runListeners calls).nextHandler) e
          else trackedHandler (runListeners calls) n e from
        tracked_lookup_mapSet (runListeners calls) n _ n e,
        if_pos rfl, lookupA_mapSet_self]
    · show ((((n, e), (runListeners calls).nextHandler)) ::
          (runListeners calls).registered).filter
          (fun r => r.1 = (n, e)) = _
      rw [filter_cons_key_self]
      have h0 := hI.regTracked n e
      rw [htr] at h0
      rw [show (runListeners calls).registered.filter
        (fun r => r.1 = (n, e)) = regList (runListeners calls) n e from rfl,
        h0]
    · exact lookupA_mapSet_self _ _ _
  · intro htr
    have hh : lookupA (nodeEvents (runListeners calls) n) e = some h := by
      rw [← trackedHandler_eq]
      exact htr
    rw [addOrUpdate_upd (runListeners calls) n e l h hh]
    refine ⟨rfl, rfl, ?_, ?_⟩
    · rw [show trackedHandler
        (⟨leInsert (runListeners calls) n,
          mapSet (runListeners calls).handleFn h l,
          (runListeners calls).registered,
          (runListeners calls).nextHandler,
          (runListeners calls).addCalls⟩ : ListenerState) n e =
          trackedHandler (runListeners calls) n e from
        tracked_lookup_leInsert (runListeners calls) n n e]
      exact htr
    · exact lookupA_mapSet_self _ _ _
  · intro htr
    have hh : lookupA (nodeEvents (runListeners calls) n) e = some h := by
      rw [← trackedHandler_eq]
      exact htr
    rw [addOrUpdate_remove (runListeners calls) n e h hh]
    refine ⟨rfl, ?_, ?_⟩
    · rw [show trackedHandler
        (⟨mapSet (leInsert (runListeners calls) n) n
            (mapDelete (nodeEvents (runListeners calls) n) e),
          (runListeners calls).handleFn,
          removeReg (runListeners calls).registered n e h,
          (runListeners calls).nextHandler,
          (runListeners calls).addCalls⟩ : ListenerState) n e =
          if n = n then lookupA (mapDelete
            (nodeEvents (runListeners calls) n) e) e
          else trackedHandler (runListeners calls) n e from
        tracked_lookup_mapSet (runListeners calls) n _ n e,
        if_pos rfl, lookupA_mapDelete_self]
    · have h0 := hI.regTracked n e
      rw [htr] at h0
      show (removeReg (runListeners calls).registered n e h).filter
          (fun r => r.1 = (n, e)) = []
      exact filter_removeReg_self (runListeners calls).registered n e h h0

/-- Witness for C8 on the empty call history. -/
theorem addOrUpdateEventListener_single_listener_witness :
    (regList (runListeners []) 0 "click").length ≤ 1 ∧
    (trackedHandler (runListeners []) 0 "click" = none →
      (addOrUpdateEventListener (runListeners []) 0 "click"
        (some 7)).addCalls = (runListeners []).addCalls + 1 ∧
      trackedHandler (addOrUpdateEventListener (runListeners []) 0 "click"
        (some 7)) 0 "click" = some (runListeners []).nextHandler ∧
      regList (addOrUpdateEventListener (runListeners []) 0 "click" (some 7))
        0 "click" = [((0, "click"), (runListeners []).nextHandler)] ∧
      lookupA (addOrUpdateEventListener (runListeners []) 0 "click"
        (some 7)).handleFn (runListeners []).nextHandler = some 7) ∧
    (trackedHandler (runListeners []) 0 "click" = some 0 →
      (addOrUpdateEventListener (runListeners []) 0 "click"
        (some 7)).addCalls = (runListeners []).addCalls ∧
      (addOrUpdateEventListener (runListeners []) 0 "click"
        (some 7)).registered = (runListeners []).registered ∧
      trackedHandler (addOrUpdateEventListener (runListeners []) 0 "click"
        (some 7)) 0 "click" = some 0 ∧
      lookupA (addOrUpdateEventListener (runListeners []) 0 "click"
        (some 7)).handleFn 0 = some 7) ∧
    (trackedHandler (runListeners []) 0 "click" = some 0 →
      (addOrUpdateEventListener (runListeners []) 0 "click" none).addCalls =
        (runListeners []).addCalls ∧
      trackedHandler (addOrUpdateEventListener (runListeners []) 0 "click"
        none) 0 "click" = none ∧
      regList (addOrUpdateEventListener (runListeners []) 0 "click" none)
        0 "click" = []) :=
  addOrUpdateEventListener_single_listener [] 0 "click" 7 0

/-- C9: `setProperty` dirty-checks event props — the listener is rebound
exactly when the new value differs from the old — while plain properties
are assigned unconditionally on every call, with no dirty check. -/
theorem setProperty_dirty_check
    (s : ListenerState × List (String × Option Nat)) (node : Nat)
    (name : String) (value old : Option Nat)
    (events : List (String × String)) (ev : String) :
    (lookupA events name = some ev →
      (value ≠ old →
        setProperty s node name value old events =
          (addOrUpdateEventListener s.1 node ev value, s.2)) ∧
      (value = old → setProperty s node name value old events = s)) ∧
    (lookupA events name = none →
      setProperty s node name value old events =
        (s.1, mapSet s.2 name value)) := by
  refine ⟨fun hev => ⟨fun hne => ?_, fun heq => ?_⟩, fun hnone => ?_⟩
  · simp [setProperty, hev, hne]
  · simp [setProperty, hev, heq]
  · simp [setProperty, hnone]

/-- Witness for C9: an event prop with an unchanged value is not rebound,
and a plain property is assigned even though its value is unchanged. -/
theorem setProperty_dirty_check_witness :
    (lookupA [("onactivate", "activate")] "onactivate" = some "activate" →
      ((some 1 : Option Nat) ≠ some 1 →
        setProperty (initListenerState, [("x", some 1)]) 0 "onactivate"
          (some 1) (some 1) [("onactivate", "activate")] =
          (addOrUpdateEventListener initListenerState 0 "activate" (some 1),
            [("x", some 1)])) ∧
      ((some 1 : Option Nat) = some 1 →
        setProperty (initListenerState, [("x", some 1)]) 0 "onactivate"
          (some 1) (some 1) [("onactivate", "activate")] =
          (initListenerState, [("x", some 1)]))) ∧
    (lookupA [("onactivate", "activate")] "x" = none →
      setProperty (initListenerState, [("x", some 1)]) 0 "x"
        (some 1) (some 1) [("onactivate", "activate")] =
        (initListenerState, mapSet [("x", some 1)] "x" (some 1))) := by
  constructor
  · exact (setProperty_dirty_check (initListenerState, [("x", some 1)]) 0
      "onactivate" (some 1) (some 1) [("onactivate", "activate")]
      "activate").1
  · exact (setProperty_dirty_check (initListenerState, [("x", some 1)]) 0
      "x" (some 1) (some 1) [("onactivate", "activate")] "activate").2

/-! ### Prop routing lemmas -/

theorem routes_eq_spec (a b c : List String) (k : String) :
    routesToElement a b c k = specRoutesToElement a b c k := by
  unfold routesToElement specRoutesToElement
  cases h1 : decide (k ∈ a) <;>
    cases h2 : decide (k ∈ reservedReactProperties) <;>
      cases h3 : decide (k ∈ b) <;>
        cases h4 : decide (k ∈ c) <;> rfl

theorem renderSplit_go {V : Type} (evP htmlP elemP : List String)
    (entries : List (String × V)) (accE accR : List (String × V)) :
    entries.foldl
      (fun acc kv =>
        if kv.1 = "__forwardedRef" then acc
        else if routesToElement evP htmlP elemP kv.1 then
          (acc.1 ++ [kv], acc.2)
        else
          (acc.1,
            acc.2 ++ [(if kv.1 = "className" then "class" else kv.1, kv.2)]))
      (accE, accR) =
      (accE ++ entries.filter (fun kv => kv.1 ≠ "__forwardedRef" ∧
          routesToElement evP htmlP elemP kv.1 = true),
        accR ++ (entries.filter (fun kv => kv.1 ≠ "__forwardedRef" ∧
          ¬(routesToElement evP htmlP elemP kv.1 = true))).map
          (fun kv => (if kv.1 = "className" then "class" else kv.1, kv.2))) := by
  induction entries generalizing accE accR with
  | nil => simp
  | cons kv rest ih =>
    rw [List.foldl_cons]
    by_cases hf : kv.1 = "__forwardedRef"
    · rw [if_pos hf, ih accE accR]
      rw [List.filter_cons, List.filter_cons]
      simp [hf]
    · rw [if_neg hf]
      by_cases hroute : routesToElement evP htmlP elemP kv.1 = true
      · rw [if_pos hroute]
        rw [show ((accE, accR).1 ++ [kv], (accE, accR).2) =
          (accE ++ [kv], accR) from rfl, ih]
        rw [List.filter_cons, List.filter_cons]
        simp [hf, hroute]
      · rw [if_neg hroute]
        rw [show ((accE, accR).1, (accE, accR).2 ++
          [(if kv.1 = "className" then "class" else kv.1, kv.2)]) =
          (accE, accR ++
            [(if kv.1 = "className" then "class" else kv.1, kv.2)]) from rfl,
          ih]
        rw [List.filter_cons, List.filter_cons]
        simp [hf, hroute]

/-- C10: in `render`, a prop entry is routed to the custom element exactly
when it is a configured event prop or a key of the element prototype that
is neither a reserved React property nor on `HTMLElement.prototype`; every
other entry except `__forwardedRef` is passed to `createElement` (after the
seeded `ref`), with `className` renamed to `class`. -/
theorem render_prop_routing {V : Type}
    (evP htmlP elemP : List String) (refV : V)
    (entries : List (String × V)) (k : String) :
    (specRoutesToElement evP htmlP elemP k = true ↔
      k ∈ evP ∨ (k ∈ elemP ∧ k ∉ reservedReactProperties ∧ k ∉ htmlP)) ∧
    renderSplit evP htmlP elemP refV entries =
      (entries.filter (fun kv => kv.1 ≠ "__forwardedRef" ∧
          specRoutesToElement evP htmlP elemP kv.1 = true),
        ("ref", refV) :: (entries.filter (fun kv =>
          kv.1 ≠ "__forwardedRef" ∧
          ¬(specRoutesToElement evP htmlP elemP kv.1 = true))).map
          (fun kv => (if kv.1 = "className" then "class" else kv.1, kv.2))) := by
  constructor
  · unfold specRoutesToElement
    simp only [Bool.or_eq_true, Bool.and_eq_true, Bool.not_eq_true',
      decide_eq_true_eq, decide_eq_false_iff_not]
    tauto
  · unfold renderSplit
    rw [renderSplit_go]
    simp only [routes_eq_spec, List.nil_append, List.singleton_append]

end LitSpec
